import Mathlib

/-!
Verification of the iOS UI-hierarchy pipeline (`ios_agent`): a shallow
embedding of `hierarchy.py` (bounds parsing, element classification, tree
traversal, merge of the clickable/focusable passes), `actions.py` and
`executor.py` (coordinate transforms, index-addressed tapping), and
`labeling.py` (scale-factor auto-detection), together with theorems that
settle the frozen claims about the spec.

Modelling conventions:
* Python strings are modelled as `List Char` (wrapped in `String` at API
  boundaries); Python `str.split(sep)`, `str.strip()`, `str.replace(a, b)`
  are re-implemented below with Python's exact semantics.
* `int(float(s))` is modelled as exact decimal parsing followed by
  truncation toward zero (`pyIntFloat`).  Binary floating-point rounding,
  `inf`/`nan` spellings and underscore digit separators are not modelled;
  for the integer-valued decimal strings the pipeline handles, the exact
  decimal semantics and the float semantics agree, and a failing
  `float(...)`/`int(...)` call corresponds to `none` (the surrounding
  Python code catches the exception and yields `None`).
* Euclidean-distance comparisons `((dx*dx+dy*dy) ** 0.5) <= r` (`r` = 5 or
  10) are modelled as `dx*dx+dy*dy ≤ r*r`: for integers `d2`, the
  correctly-rounded float square root satisfies `sqrt d2 ≤ r ↔ d2 ≤ r*r`.
* Python `//` on ints is floor division (`Int.fdiv`); `int(x / n)` is
  truncation toward zero of the quotient (`Int.tdiv` for integral `x`).
* An XML document (`xml.etree.ElementTree`) is modelled as a rose tree
  `XNode`; the list of children is represented by the mutually inductive
  `XForest` (isomorphic to `List XNode`) so that the traversal is
  structurally recursive and computable by `rfl`/`decide`.
-/

/-- Python whitespace-strip of both ends (`str.strip()`). -/
def pyStrip (l : List Char) : List Char :=
  ((l.dropWhile Char.isWhitespace).reverse.dropWhile Char.isWhitespace).reverse

/-- Python `str.split(",")`: splits at every separator; `""` gives `[""]`. -/
def pySplit : List Char → List (List Char)
  | [] => [[]]
  | c :: rest =>
    if c = ',' then [] :: pySplit rest
    else
      match pySplit rest with
      | [] => [[c]]
      | h :: t => (c :: h) :: t

/-- Python substring test `pat in s` (for `str`). -/
def containsSub (pat : List Char) : List Char → Bool
  | [] => pat.isEmpty
  | c :: rest => pat.isPrefixOf (c :: rest) || containsSub pat rest

/-- Python `str.replace(a, "")` for a single-character pattern `a`. -/
def removeSub1 (a : Char) : List Char → List Char
  | [] => []
  | c :: rest => if c = a then removeSub1 a rest else c :: removeSub1 a rest

/-- Python `str.replace(ab, "")` for a two-character pattern `ab`
(left-to-right scan, no overlap re-check after a removal). -/
def removeSub2 (a b : Char) : List Char → List Char
  | [] => []
  | [c] => [c]
  | c :: d :: rest =>
    if c = a ∧ d = b then removeSub2 a b rest
    else c :: removeSub2 a b (d :: rest)

/-- Python `str.replace(ab, r)` for a two-character pattern `ab` and a
single-character replacement `r`. -/
def repl2 (a b r : Char) : List Char → List Char
  | [] => []
  | [c] => [c]
  | c :: d :: rest =>
    if c = a ∧ d = b then r :: repl2 a b r rest
    else c :: repl2 a b r (d :: rest)

/-- Decimal value of a digit list (most significant first). -/
def digitsVal (l : List Char) : Nat :=
  l.foldl (fun a c => 10 * a + (c.toNat - 48)) 0

/-- Exponent suffix of a Python float literal: `[]`, or `e`/`E` followed by
an optional sign and a nonempty digit run. -/
def parseExpPart : List Char → Option Int
  | [] => some 0
  | c :: rest =>
    if c = 'e' ∨ c = 'E' then
      let p : Bool × List Char :=
        if rest.headI = '+' then (false, rest.tail)
        else if rest.headI = '-' then (true, rest.tail)
        else (false, rest)
      if p.2 ≠ [] ∧ p.2.all Char.isDigit then
        some (if p.1 then -(digitsVal p.2 : Int) else (digitsVal p.2 : Int))
      else none
    else none

/-- Parse a Python decimal float literal (`float(s)`): surrounding
whitespace, optional sign, integer digits and/or fractional digits, and an
optional exponent.  Result: (negative?, mantissa, #fraction digits,
exponent), so the value is `± mantissa * 10^(exponent - #fraction)`. -/
def pyFloatParse (s0 : List Char) : Option (Bool × Nat × Nat × Int) :=
  let s := pyStrip s0
  let sg : Bool × List Char :=
    if s.headI = '+' then (false, s.tail)
    else if s.headI = '-' then (true, s.tail)
    else (false, s)
  let ip := sg.2.takeWhile Char.isDigit
  let rest1 := sg.2.drop ip.length
  if rest1.headI = '.' ∧ rest1 ≠ [] then
    let r2 := rest1.tail
    let fp := r2.takeWhile Char.isDigit
    let rest2 := r2.drop fp.length
    if ip = [] ∧ fp = [] then none
    else (parseExpPart rest2).map fun e =>
      (sg.1, digitsVal ip * 10 ^ fp.length + digitsVal fp, fp.length, e)
  else
    if ip = [] then none
    else (parseExpPart rest1).map fun e => (sg.1, digitsVal ip, 0, e)

/-- Truncation toward zero of a parsed decimal literal (Python `int(...)`
applied to the float value). -/
def pyTruncLit (q : Bool × Nat × Nat × Int) : Int :=
  let mag : Nat :=
    if (q.2.2.1 : Int) ≤ q.2.2.2 then q.2.1 * 10 ^ (q.2.2.2 - q.2.2.1).toNat
    else q.2.1 / 10 ^ ((q.2.2.1 : Int) - q.2.2.2).toNat
  if q.1 then -(mag : Int) else (mag : Int)

/-- Python `int(float(s))`, `none` when `float(s)` raises. -/
def pyIntFloat (s : List Char) : Option Int :=
  (pyFloatParse s).map pyTruncLit

/-- A point in logical pixel coordinates. -/
abbrev IPoint := Int × Int

/-- A bounding box `((x1, y1), (x2, y2))` as used throughout
`hierarchy.py`. -/
abbrev BBox := IPoint × IPoint

/-- `hierarchy.IOSElement`: one labelled interactive UI element. -/
structure IOSElement where
  uid : String
  bbox : BBox
  attrib : String
  element_type : String
  name : Option String
  label : Option String
  identifier : Option String
deriving Repr, DecidableEq

/-- Brace removal performed by `parse_bounds` on the nested form:
`replace("\x7b\x7b", "").replace("\x7d\x7d", "").replace("\x7b",
"").replace("\x7d", "")`. -/
def removeBraces (l : List Char) : List Char :=
  removeSub1 '\x7d' (removeSub1 '\x7b' (removeSub2 '\x7d' '\x7d' (removeSub2 '\x7b' '\x7b' l)))

/-- The four-field decode shared by both branches of `parse_bounds`:
`x, y, width, height` from the first four comma-separated parts, each
`int(float(part.strip()))`, giving `((x, y), (x+width, y+height))`. -/
def parseFourParts : List (List Char) → Option BBox
  | p0 :: p1 :: p2 :: p3 :: _ => do
    let x ← pyIntFloat (pyStrip p0)
    let y ← pyIntFloat (pyStrip p1)
    let w ← pyIntFloat (pyStrip p2)
    let h ← pyIntFloat (pyStrip p3)
    return ((x, y), (x + w, y + h))
  | _ => none

/-- The flat-format attempt of `parse_bounds`: split on commas, need at
least four parts. -/
def parseFlat (l : List Char) : Option BBox :=
  let parts := pySplit l
  if 4 ≤ parts.length then parseFourParts parts else none

/-- `hierarchy.parse_bounds` on the character list of the input string.
Empty input gives `None`; the nested-brace branch is tried when the string
contains `\x7b\x7b`; an exception inside either branch (a part that fails
`int(float(...))`) is caught and gives `None`. -/
def parseBoundsL (bounds_str : List Char) : Option BBox :=
  if bounds_str = [] then none
  else if containsSub ['\x7b', '\x7b'] bounds_str then
    let stripped := removeBraces bounds_str
    let parts := pySplit stripped
    if 4 ≤ parts.length then parseFourParts parts
    else parseFlat stripped
  else parseFlat bounds_str

/-- `hierarchy.parse_bounds`. -/
def parse_bounds (bounds_str : String) : Option BBox :=
  parseBoundsL bounds_str.toList


mutual
/-- A parsed structured-markup element (`xml.etree.ElementTree.Element`):
tag, attribute dictionary, children. -/
inductive XNode where
  | mk (tag : String) (attrs : List (String × String)) (children : XForest)
deriving Repr
/-- The children of an `XNode`, as a mutually inductive forest (isomorphic
to `List XNode`) so that the tree walker is structurally recursive. -/
inductive XForest where
  | nil
  | cons (head : XNode) (tail : XForest)
deriving Repr
end

/-- Tag of a node (`element.tag`). -/
def XNode.tag : XNode → String
  | .mk t _ _ => t

/-- Children of a node (iterated by `for child in node`). -/
def XNode.children : XNode → XForest
  | .mk _ _ cs => cs

/-- Attribute lookup `element.get(key)`: `None` when absent. -/
def XNode.get (n : XNode) (key : String) : Option String :=
  match n with
  | .mk _ attrs _ => (attrs.find? (fun p => p.1 = key)).map (fun p => p.2)

/-- Attribute lookup with default, `element.get(key, d)`. -/
def XNode.getD (n : XNode) (key d : String) : String :=
  (n.get key).getD d

/-- `hierarchy.get_element_bounds`: prefer the `bounds` attribute (when
present and parseable), otherwise require all of `x`, `y`, `width`,
`height` to be present and nonempty and parse each with `int(float(_))`
(a `ValueError` is caught and yields `None`). -/
def get_element_bounds (element : XNode) : Option BBox :=
  let bounds_str := element.getD "bounds" ""
  match (if bounds_str ≠ "" then parse_bounds bounds_str else none) with
  | some bbox => some bbox
  | none =>
    let x_str := element.getD "x" ""
    let y_str := element.getD "y" ""
    let width_str := element.getD "width" ""
    let height_str := element.getD "height" ""
    if x_str ≠ "" ∧ y_str ≠ "" ∧ width_str ≠ "" ∧ height_str ≠ "" then do
      let x ← pyIntFloat x_str.toList
      let y ← pyIntFloat y_str.toList
      let w ← pyIntFloat width_str.toList
      let h ← pyIntFloat height_str.toList
      return ((x, y), (x + w, y + h))
    else none

/-- Width and height used by `get_element_id`: from the bounds when
available, else `(0, 0)`. -/
def elemWH (element : XNode) : Int × Int :=
  match get_element_bounds element with
  | some bbox => (bbox.2.1 - bbox.1.1, bbox.2.2 - bbox.1.2)
  | none => (0, 0)

/-- Python `a or b` for an optional string `a` (first operand kept when it
is present and nonempty). -/
def pyOrStr (a : Option String) (b : String) : String :=
  match a with
  | some s => if s ≠ "" then s else b
  | none => b

/-- The identifier source chosen by `get_element_id`:
`element.get('name') or element.get('identifier') or
element.get('label', '')`. -/
def idSource (element : XNode) : String :=
  pyOrStr (element.get "name") (pyOrStr (element.get "identifier") (element.getD "label" ""))

/-- `identifier.replace(' ', '_').replace(':', '_')`. -/
def sanitizeId (s : String) : String :=
  String.mk ((s.toList.map fun c => if c = ' ' then '_' else c).map fun c => if c = ':' then '_' else c)

/-- `hierarchy.get_element_id`: `type_identifier` (spaces/colons replaced)
when a nonempty name/identifier/label is carried, else
`type_width_height`. -/
def get_element_id (element : XNode) : String :=
  let element_type := element.tag
  let wh := elemWH element
  let identifier := idSource element
  if identifier ≠ "" then element_type ++ "_" ++ sanitizeId identifier
  else element_type ++ "_" ++ toString wh.1 ++ "_" ++ toString wh.2

/-- The interactive element types of `is_interactive_element`. -/
def interactive_types : List String :=
  ["XCUIElementTypeButton", "XCUIElementTypeCell", "XCUIElementTypeTextField",
   "XCUIElementTypeSecureTextField", "XCUIElementTypeSearchField",
   "XCUIElementTypeSlider", "XCUIElementTypeSwitch", "XCUIElementTypeTab",
   "XCUIElementTypeLink", "XCUIElementTypeImage", "XCUIElementTypeIcon",
   "XCUIElementTypeStaticText"]

/-- `hierarchy.is_interactive_element`: the tag must contain one of the
interactive type names as a substring, `enabled`/`visible` must not be the
literal string `"false"`, the bounds must resolve, the width and height
must be positive, and the box must not be all zeros. -/
def is_interactive_element (element : XNode) : Bool :=
  let element_type := element.tag
  if ¬ (interactive_types.any fun it => containsSub it.toList element_type.toList) then false
  else if element.getD "enabled" "true" = "false" then false
  else if element.getD "visible" "true" = "false" then false
  else
    match get_element_bounds element with
    | none => false
    | some bbox =>
      if bbox.2.1 - bbox.1.1 ≤ 0 ∨ bbox.2.2 - bbox.1.2 ≤ 0 then false
      else if bbox.1.1 = 0 ∧ bbox.1.2 = 0 ∧ bbox.2.1 = 0 ∧ bbox.2.2 = 0 then false
      else true

/-- Center of a bounding box: `((x1+x2)//2, (y1+y2)//2)` with Python floor
division. -/
def bboxCenter (b : BBox) : IPoint :=
  (Int.fdiv (b.1.1 + b.2.1) 2, Int.fdiv (b.1.2 + b.2.2) 2)

/-- Squared Euclidean distance between two centers; the source compares
`((dx*dx+dy*dy) ** 0.5) <= r`, equivalent to `dist2 ≤ r*r`. -/
def dist2 (p q : IPoint) : Int :=
  (p.1 - q.1) ^ 2 + (p.2 - q.2) ^ 2

/-- The `IOSElement` constructed by `traverse_ios_tree` for an accepted
node: identifier (with optional parent prefix and index suffix), bounds,
pass attribute, tag, and the raw `name`/`label`/`identifier` attributes. -/
def mkIOSElement (attrib : String) (add_index : Bool) (parent : Option XNode)
    (node : XNode) (bbox : BBox) : IOSElement :=
  let elem_id := get_element_id node
  let elem_id := match parent with
    | some p => get_element_id p ++ "_" ++ elem_id
    | none => elem_id
  let elem_id := if add_index then elem_id ++ "_" ++ node.getD "index" "0" else elem_id
  { uid := elem_id
    bbox := bbox
    attrib := attrib
    element_type := node.tag
    name := node.get "name"
    label := node.get "label"
    identifier := node.get "identifier" }

/-- One visit of `traverse_ios_tree.traverse` at a single node (before
recursing into the children): an interactive node with resolvable bounds
is appended unless its center lies within distance 5 (`dist2 ≤ 25`) of the
center of an element already in the list. -/
def visitStep (attrib : String) (add_index : Bool) (parent : Option XNode)
    (node : XNode) (elem_list : List IOSElement) : List IOSElement :=
  if is_interactive_element node then
    match get_element_bounds node with
    | some bbox =>
      let center := bboxCenter bbox
      if elem_list.any (fun e => dist2 center (bboxCenter e.bbox) ≤ 25) then elem_list
      else elem_list ++ [mkIOSElement attrib add_index parent node bbox]
    | none => elem_list
  else elem_list

mutual
/-- Recursive body of `traverse_ios_tree.traverse`: visit the node, then
traverse the children with this node as parent (`path[-2]`). -/
def visitNode (attrib : String) (add_index : Bool) (parent : Option XNode)
    (node : XNode) (elem_list : List IOSElement) : List IOSElement :=
  match node with
  | .mk t a cs =>
    visitForest attrib add_index (.mk t a cs) cs
      (visitStep attrib add_index parent (.mk t a cs) elem_list)
/-- Traversal of a forest of children, left to right, threading the
accumulated element list. -/
def visitForest (attrib : String) (add_index : Bool) (p : XNode)
    (f : XForest) (elem_list : List IOSElement) : List IOSElement :=
  match f with
  | .nil => elem_list
  | .cons c rest =>
    visitForest attrib add_index p rest
      (visitNode attrib add_index (some p) c elem_list)
end

/-- `hierarchy.traverse_ios_tree`.  The markup string is represented by its
parse result: `none` models an `ET.fromstring` failure (the function
returns leaving `elem_list` unchanged); `some root` models a successful
parse.  The root is visited with an empty path, hence no parent. -/
def traverse_ios_tree (src : Option XNode) (elem_list : List IOSElement)
    (attrib : String) (add_index : Bool) : List IOSElement :=
  match src with
  | none => elem_list
  | some root => visitNode attrib add_index none root elem_list

/-- `hierarchy.get_ios_elements`.  `src = none` covers both the empty-string
early return and a markup parse failure (each yields `[]`: the two passes
leave their lists empty and the merge of two empty lists is empty).  The
clickable pass and the focusable pass run the identical traversal (both
with `add_index = True`); the merge keeps every clickable element and then
appends each focusable element whose center is farther than 10
(`dist2 > 100`) from every clickable center. -/
def get_ios_elements (src : Option XNode) : List IOSElement :=
  let clickable_list := traverse_ios_tree src [] "clickable" true
  let focusable_list := traverse_ios_tree src [] "focusable" true
  let elem_list := clickable_list.foldl (fun acc elem => acc ++ [elem]) []
  focusable_list.foldl (fun acc elem =>
    if clickable_list.any (fun e => dist2 (bboxCenter elem.bbox) (bboxCenter e.bbox) ≤ 100)
    then acc
    else acc ++ [elem]) elem_list

mutual
/-- Pre-order list of the centers of every qualifying candidate node of one
traversal pass (interactive, bounds resolvable), with no proximity
suppression: the discovery order of candidates in `traverse_ios_tree`. -/
def candCentersNode (n : XNode) : List IPoint :=
  match n with
  | .mk t a cs =>
    (if is_interactive_element (.mk t a cs) then
      match get_element_bounds (.mk t a cs) with
      | some bbox => [bboxCenter bbox]
      | none => []
    else []) ++ candCentersForest cs

/-- Forest version of `candCentersNode`. -/
def candCentersForest (f : XForest) : List IPoint :=
  match f with
  | .nil => []
  | .cons c rest => candCentersNode c ++ candCentersForest rest
end

/-- `actions.SCALE_FACTOR` (3 for most modern iPhones). -/
def SCALE_FACTOR : Int := 3

/-- `actions._physical_to_logical`: `int(x / SCALE_FACTOR)`, true division
followed by truncation toward zero. -/
def _physical_to_logical (x y : Int) : Int × Int :=
  (Int.tdiv x SCALE_FACTOR, Int.tdiv y SCALE_FACTOR)

/-- `actions._logical_to_physical`: `int(x * SCALE_FACTOR)` (already an
int). -/
def _logical_to_physical (x y : Int) : Int × Int :=
  (x * SCALE_FACTOR, y * SCALE_FACTOR)

/-- The two failure modes of `executor.tap_by_index`: the `ValueError` for
an empty element list, and the assertion error for an index outside
`1..len(elem_list)`. -/
inductive TapIndexError where
  | emptyList
  | indexOutOfRange
deriving Repr, DecidableEq

/-- `executor.tap_by_index` restricted to its addressing logic: on success
it returns the physical coordinates passed to `self.tap`, namely
`_logical_to_physical` applied to the logical bbox center
`((tl+br)//2)` of element `index - 1` (the HTTP tap action itself is
outside the embedding). -/
def tap_by_index (elem_list : List IOSElement) (index : Int) :
    Except TapIndexError (Int × Int) :=
  if elem_list.isEmpty then .error .emptyList
  else if ¬ (0 < index ∧ index ≤ elem_list.length) then .error .indexOutOfRange
  else
    match elem_list.get? (index - 1).toNat with
    | some e =>
      let x_logical := Int.fdiv (e.bbox.1.1 + e.bbox.2.1) 2
      let y_logical := Int.fdiv (e.bbox.1.2 + e.bbox.2.2) 2
      .ok (_logical_to_physical x_logical y_logical)
    | none => .error .indexOutOfRange

/-- `labeling.IOS_SCALE_FACTOR` (fallback when the screenshot cannot be
loaded). -/
def IOS_SCALE_FACTOR : ℚ := 3

/-- `labeling._get_scale_factor` for a successfully loaded screenshot of
the given pixel width: widths of at least 1100 match the known iPhone
profiles (393- and 390-logical width at 3x, 375 at 2x) within tolerance
10, otherwise fall back to `width / 375`; narrower images are taken to be
logical already.  Float arithmetic is modelled exactly over `ℚ` (exact at
these magnitudes). -/
def scale_from_width (width : Nat) : ℚ :=
  if 1100 ≤ width then
    if |(width : ℚ) / 3 - 393| < 10 then 3
    else if |(width : ℚ) / 3 - 390| < 10 then 3
    else if |(width : ℚ) / 2 - 375| < 10 then 2
    else (width : ℚ) / 375
  else 1

/-- `labeling._get_scale_factor`: `none` models `cv2.imread` failing (the
constant fallback); `some (height, width)` is `img.shape[:2]`. -/
def _get_scale_factor (img : Option (Nat × Nat)) : ℚ :=
  match img with
  | none => IOS_SCALE_FACTOR
  | some hw => scale_from_width hw.2

/-- The markup plausibility check of `get_page_source`: the trimmed string
starts with `<` or contains `<?xml` within its first 100 characters. -/
def looksLikeXmlL (stripped : List Char) : Bool :=
  (stripped.headI = '<' ∧ stripped ≠ []) || containsSub "<?xml".toList (stripped.take 100)

/-- Quote removal of `get_page_source` (after stripping): drop a matching
pair of surrounding double or single quotes (`source[1:-1]`). -/
def stripQuotes (s : List Char) : List Char :=
  if (s.headI = '\"' ∧ s.getLastD ' ' = '\"' ∧ s ≠ [])
     ∨ (s.headI = '\x27' ∧ s.getLastD ' ' = '\x27' ∧ s ≠ []) then
    (s.drop 1).dropLast
  else s

/-- Escape-sequence unfolding of `get_page_source`:
`replace('\\n', newline)`, `\\t`, `\\r`, `\\"`, `\\'` in that order. -/
def unescapeSeqs (s : List Char) : List Char :=
  repl2 '\\' '\x27' '\x27'
    (repl2 '\\' '\"' '\"'
      (repl2 '\\' 'r' '\r'
        (repl2 '\\' 't' '\t'
          (repl2 '\\' 'n' '\n' s))))

/-- The JSON-wrapper arm of `get_page_source` (hierarchy.py lines 86-120)
given the string extracted from the decoded response: when its strip is
nonempty, it is stripped, unquoted, unescaped and returned; the
plausibility check (and the trial `ET.fromstring`) only selects which
warning is logged — every branch returns the processed string.  An
empty-after-strip extraction falls through without a return (`none`). -/
def processSource (source : String) : Option String :=
  if (pyStrip source.toList).length = 0 then none
  else
    let s := pyStrip source.toList
    let s := stripQuotes s
    let s := unescapeSeqs s
    if looksLikeXmlL (pyStrip s) then some (String.mk s)
    else some (String.mk s)

/-- The raw-body fallback arm of `get_page_source` (hierarchy.py lines
122-133), used when the response does not decode as JSON: a nonempty body
is stripped and returned only when it passes the plausibility check;
otherwise the arm logs a warning and falls through without returning
(`none`, the candidate URL is abandoned). -/
def processRawText (text : String) : Option String :=
  if (pyStrip text.toList).length = 0 then none
  else
    let t := pyStrip text.toList
    if looksLikeXmlL t then some (String.mk t)
    else none

/-- Replace only the pass attribute of an element. -/
def setAttrib (a : String) (e : IOSElement) : IOSElement :=
  { e with attrib := a }

/-- Elementwise invariant of one pass: every element carries the pass
attribute and a strictly positive box. -/
def PassInv (attrib : String) (acc : List IOSElement) : Prop :=
  ∀ e ∈ acc, e.attrib = attrib ∧ e.bbox.1.1 < e.bbox.2.1 ∧ e.bbox.1.2 < e.bbox.2.2

/-- Pairwise-separation invariant of one pass: the centers of any two
accumulated elements have squared distance above the in-pass suppression
threshold 25. -/
def SepInv (acc : List IOSElement) : Prop :=
  acc.Pairwise (fun e1 e2 => 25 < dist2 (bboxCenter e1.bbox) (bboxCenter e2.bbox))

/-- A concrete enabled, visible button of size 2x2 at `(x, 0)`, with bounds
given through the separate `x`/`y`/`width`/`height` attributes. -/
def btnAt (x : Int) : XNode :=
  .mk "XCUIElementTypeButton"
    [("x", toString x), ("y", "0"), ("width", "2"), ("height", "2")] .nil

/-- Three buttons whose centers sit at x = 1, 5, 9: the middle one is
suppressed by the first (distance 4 ≤ 5), after which the third is
accepted (distance 8 > 5 from the first) although it sits within
distance 4 of the suppressed middle one. -/
def cexTree : XNode :=
  .mk "AppRoot" [] (.cons (btnAt 0) (.cons (btnAt 4) (.cons (btnAt 8) .nil)))

/-- A concrete member of `get_ios_elements (some cexTree)`. -/
def wClick : IOSElement :=
  { uid := "AppRoot_0_0_XCUIElementTypeButton_2_2_0"
    bbox := ((0, 0), (2, 2))
    attrib := "clickable"
    element_type := "XCUIElementTypeButton"
    name := none, label := none, identifier := none }

/-- The second retained element of `get_ios_elements (some cexTree)`. -/
def wClick2 : IOSElement :=
  { uid := "AppRoot_0_0_XCUIElementTypeButton_2_2_0"
    bbox := ((8, 0), (10, 2))
    attrib := "clickable"
    element_type := "XCUIElementTypeButton"
    name := none, label := none, identifier := none }

/-- A concrete element for the C3 witness (center `(1, 2)`). -/
def wElem : IOSElement :=
  { uid := "w", bbox := ((0, 0), (2, 4)), attrib := "clickable"
    element_type := "XCUIElementTypeButton"
    name := none, label := none, identifier := none }

/-- The node for the C7 witness: named (with a space), indexed, and with
explicit geometry. -/
def wNode : XNode :=
  .mk "XCUIElementTypeButton"
    [("name", "OK Go"), ("index", "3"), ("x", "0"), ("y", "0"),
     ("width", "10"), ("height", "10")] .nil

/-- An anonymous parent for the C7 witness (no name/label/identifier, no
bounds: identifier `Root_0_0`). -/
def wPar : XNode :=
  .mk "Root" [] (.cons wNode .nil)

/-- The nested-brace rendering of four numeric tokens. -/
def nestedBoundsStr (t1 t2 t3 t4 : List Char) : List Char :=
  '\x7b' :: '\x7b' :: (t1 ++ ',' :: ' ' :: (t2 ++ '\x7d' :: ',' :: ' ' :: '\x7b' :: (t3 ++ ',' :: ' ' :: (t4 ++ ['\x7d', '\x7d']))))

/-- The flat comma rendering of four numeric tokens. -/
def flatBoundsStr (t1 t2 t3 t4 : List Char) : List Char :=
  t1 ++ ',' :: (t2 ++ ',' :: (t3 ++ ',' :: t4))

example : parse_bounds "\x7b\x7b10, 20\x7d, \x7b30, 40\x7d\x7d" = some ((10, 20), (40, 60)) := by decide
example : parse_bounds "10,20,30,40" = some ((10, 20), (40, 60)) := by decide
example : parse_bounds "" = none := by decide
example : parse_bounds "abc" = none := by decide
example : parse_bounds "a,b,c,d" = none := by decide
example : parse_bounds " 1.5 , 2 , 3 , 4 " = some ((1, 2), (4, 6)) := by decide
example : parse_bounds "-3,-4,5,6" = some ((-3, -4), (2, 2)) := by decide

section Lemmas

/-- Accumulating `for`-loop append is list append. -/
theorem foldl_append_eq {α : Type} (l init : List α) :
    l.foldl (fun acc elem => acc ++ [elem]) init = init ++ l := by
  induction l generalizing init with
  | nil => simp
  | cons e l ih => simp [List.foldl_cons, ih]

/-- A `for`-loop that appends exactly the elements failing a test is
`filter` of the negated test. -/
theorem foldl_filter_eq {α : Type} (p : α → Bool) (l init : List α) :
    l.foldl (fun acc e => if p e then acc else acc ++ [e]) init
      = init ++ l.filter (fun e => !p e) := by
  induction l generalizing init with
  | nil => simp
  | cons e l ih =>
    by_cases h : p e = true
    · simp [List.foldl_cons, h, ih, List.filter_cons]
    · simp [List.foldl_cons, h, ih, List.filter_cons]

theorem dist2_comm (p q : IPoint) : dist2 p q = dist2 q p := by
  unfold dist2; ring

theorem dist2_self (p : IPoint) : dist2 p p = 0 := by
  unfold dist2; ring

theorem anyMap {α β : Type} (f : α → β) (l : List α) (p : β → Bool) :
    (l.map f).any p = l.any (fun a => p (f a)) := by
  induction l with
  | nil => rfl
  | cons a l ih => simp [List.any_cons, ih]

/-- Positivity of the box dimensions of any node that passes
`is_interactive_element` (its `width <= 0 or height <= 0` rejection). -/
theorem interactive_bounds_pos (n : XNode) (bb : BBox)
    (hi : is_interactive_element n = true) (hb : get_element_bounds n = some bb) :
    bb.1.1 < bb.2.1 ∧ bb.1.2 < bb.2.2 := by
  simp only [is_interactive_element, hb] at hi
  split_ifs at hi with h1 h2 h3 h4 h5
  push_neg at h4
  omega

/-- A node whose bounds cannot be resolved never passes
`is_interactive_element`. -/
theorem interactive_needs_bounds (n : XNode)
    (hb : get_element_bounds n = none) : is_interactive_element n = false := by
  simp only [is_interactive_element, hb]
  split_ifs <;> rfl

/-- Any property of the accumulated element list that each single-node
visit preserves is preserved by the whole traversal (joint strong
induction on the size of the node/forest). -/
theorem visit_preserves (attrib : String) (ai : Bool) (Q : List IOSElement → Prop)
    (hstep : ∀ parent node acc, Q acc → Q (visitStep attrib ai parent node acc)) :
    ∀ k : Nat,
      (∀ n : XNode, sizeOf n ≤ k →
        ∀ parent acc, Q acc → Q (visitNode attrib ai parent n acc)) ∧
      (∀ f : XForest, sizeOf f ≤ k →
        ∀ p acc, Q acc → Q (visitForest attrib ai p f acc)) := by
  intro k
  induction k with
  | zero =>
    constructor
    · intro n hn
      exfalso
      cases n with
      | mk t a cs => simp only [XNode.mk.sizeOf_spec] at hn; omega
    · intro f hf p acc hq
      cases f with
      | nil => simpa [visitForest] using hq
      | cons c rest =>
        exfalso
        simp only [XForest.cons.sizeOf_spec] at hf
        omega
  | succ k ih =>
    constructor
    · intro n hn parent acc hq
      cases n with
      | mk t a cs =>
        rw [visitNode]
        refine (ih.2) cs ?_ _ _ (hstep _ _ _ hq)
        simp only [XNode.mk.sizeOf_spec] at hn
        omega
    · intro f hf p acc hq
      cases f with
      | nil => simpa [visitForest] using hq
      | cons c rest =>
        rw [visitForest]
        have hsz : sizeOf (XForest.cons c rest) = 1 + sizeOf c + sizeOf rest := by
          simp [XForest.cons.sizeOf_spec]
        refine (ih.2) rest ?_ _ _ ((ih.1) c ?_ _ _ hq) <;> omega

/-- `visit_preserves` specialised to `traverse_ios_tree`. -/
theorem traverse_preserves (attrib : String) (ai : Bool) (Q : List IOSElement → Prop)
    (hstep : ∀ parent node acc, Q acc → Q (visitStep attrib ai parent node acc))
    (src : Option XNode) (acc : List IOSElement) (hq : Q acc) :
    Q (traverse_ios_tree src acc attrib ai) := by
  cases src with
  | none => simpa [traverse_ios_tree] using hq
  | some root =>
    exact (visit_preserves attrib ai Q hstep (sizeOf root)).1 root le_rfl none acc hq

end Lemmas

section Parametricity

theorem setAttrib_bbox (a : String) (e : IOSElement) : (setAttrib a e).bbox = e.bbox := rfl

/-- A single visit step is parametric in the pass attribute: running it
with attribute `a2` on an accumulator whose attributes were rewritten to
`a2` matches rewriting the attributes of the `a1` run. -/
theorem visitStep_map (a1 a2 : String) (ai : Bool) (parent : Option XNode)
    (node : XNode) (acc : List IOSElement) :
    visitStep a2 ai parent node (acc.map (setAttrib a2)) =
      (visitStep a1 ai parent node acc).map (setAttrib a2) := by
  unfold visitStep
  by_cases hi : is_interactive_element node = true
  · simp only [hi, if_true]
    cases hb : get_element_bounds node with
    | none => rfl
    | some bbox =>
      simp only
      rw [anyMap]
      simp only [setAttrib_bbox]
      by_cases hc : acc.any
          (fun e => decide (dist2 (bboxCenter bbox) (bboxCenter e.bbox) ≤ 25)) = true
      · simp [hc]
      · simp only [Bool.not_eq_true] at hc
        simp [hc, mkIOSElement, setAttrib]
  · simp [hi]

/-- Whole-traversal version of `visitStep_map`, by joint strong induction
on the size of the node/forest. -/
theorem visit_map (a1 a2 : String) (ai : Bool) :
    ∀ k : Nat,
      (∀ n : XNode, sizeOf n ≤ k → ∀ parent acc,
        visitNode a2 ai parent n (acc.map (setAttrib a2)) =
          (visitNode a1 ai parent n acc).map (setAttrib a2)) ∧
      (∀ f : XForest, sizeOf f ≤ k → ∀ p acc,
        visitForest a2 ai p f (acc.map (setAttrib a2)) =
          (visitForest a1 ai p f acc).map (setAttrib a2)) := by
  intro k
  induction k with
  | zero =>
    constructor
    · intro n hn
      exfalso
      cases n with
      | mk t a cs => simp only [XNode.mk.sizeOf_spec] at hn; omega
    · intro f hf p acc
      cases f with
      | nil => simp [visitForest]
      | cons c rest =>
        exfalso
        simp only [XForest.cons.sizeOf_spec] at hf
        omega
  | succ k ih =>
    constructor
    · intro n hn parent acc
      cases n with
      | mk t a cs =>
        rw [visitNode, visitNode, visitStep_map a1 a2]
        refine (ih.2) cs ?_ _ _
        simp only [XNode.mk.sizeOf_spec] at hn
        omega
    · intro f hf p acc
      cases f with
      | nil => simp [visitForest]
      | cons c rest =>
        rw [visitForest, visitForest, (ih.1) c ?_ (some p) acc]
        · refine (ih.2) rest ?_ _ _
          simp only [XForest.cons.sizeOf_spec] at hf
          omega
        · simp only [XForest.cons.sizeOf_spec] at hf
          omega

/-- The focusable pass produces exactly the clickable pass with the
attribute rewritten: the two `traverse_ios_tree` calls in
`get_ios_elements` differ only in the attribute string. -/
theorem foc_eq_map_click (src : Option XNode) :
    traverse_ios_tree src [] "focusable" true =
      (traverse_ios_tree src [] "clickable" true).map (setAttrib "focusable") := by
  cases src with
  | none => rfl
  | some root =>
    have h := (visit_map "clickable" "focusable" true (sizeOf root)).1 root le_rfl none []
    simpa [traverse_ios_tree] using h

end Parametricity

/-- The merge loop of `get_ios_elements`, written as append/filter:
clickable elements first in order, then the focusable elements whose
center is farther than 10 from every clickable center. -/
theorem get_ios_elements_eq (src : Option XNode) :
    get_ios_elements src =
      traverse_ios_tree src [] "clickable" true ++
        (traverse_ios_tree src [] "focusable" true).filter
          (fun elem => !(traverse_ios_tree src [] "clickable" true).any
            (fun e => dist2 (bboxCenter elem.bbox) (bboxCenter e.bbox) ≤ 100)) := by
  simp only [get_ios_elements, foldl_append_eq, foldl_filter_eq, List.nil_append]

/-- Because the two passes coincide (up to the attribute), every focusable
candidate sits at distance 0 from its clickable twin and the merge filter
removes it: the merged list is exactly the clickable pass. -/
theorem merged_eq_click (src : Option XNode) :
    get_ios_elements src = traverse_ios_tree src [] "clickable" true := by
  rw [get_ios_elements_eq, foc_eq_map_click]
  have hall : ∀ e ∈ (traverse_ios_tree src [] "clickable" true).map (setAttrib "focusable"),
      ((traverse_ios_tree src [] "clickable" true).any
        (fun e2 => dist2 (bboxCenter e.bbox) (bboxCenter e2.bbox) ≤ 100)) = true := by
    intro e he
    obtain ⟨c, hc, rfl⟩ := List.mem_map.mp he
    refine List.any_eq_true.mpr ⟨c, hc, ?_⟩
    simp [setAttrib_bbox, dist2_self]
  have hnil : List.filter (fun elem => !(traverse_ios_tree src [] "clickable" true).any
        (fun e => dist2 (bboxCenter elem.bbox) (bboxCenter e.bbox) ≤ 100))
      ((traverse_ios_tree src [] "clickable" true).map (setAttrib "focusable")) = [] := by
    refine List.filter_eq_nil_iff.mpr ?_
    intro e he
    simp [hall e he]
  rw [hnil, List.append_nil]

theorem visitStep_passinv (attrib : String) (ai : Bool) (parent : Option XNode)
    (node : XNode) (acc : List IOSElement) (hq : PassInv attrib acc) :
    PassInv attrib (visitStep attrib ai parent node acc) := by
  unfold visitStep
  by_cases hi : is_interactive_element node = true
  · simp only [hi, if_true]
    cases hb : get_element_bounds node with
    | none => exact hq
    | some bbox =>
      simp only
      by_cases hc : acc.any
          (fun e => decide (dist2 (bboxCenter bbox) (bboxCenter e.bbox) ≤ 25)) = true
      · simp only [hc, if_true]; exact hq
      · simp only [hc, if_false, Bool.false_eq_true]
        intro e he
        rcases List.mem_append.mp he with h | h
        · exact hq e h
        · rcases List.mem_singleton.mp h with rfl
          exact ⟨rfl, interactive_bounds_pos node bbox hi hb⟩
  · simp only [hi, if_false, Bool.false_eq_true]; exact hq

theorem visitStep_sepinv (attrib : String) (ai : Bool) (parent : Option XNode)
    (node : XNode) (acc : List IOSElement) (hq : SepInv acc) :
    SepInv (visitStep attrib ai parent node acc) := by
  unfold visitStep
  by_cases hi : is_interactive_element node = true
  · simp only [hi, if_true]
    cases hb : get_element_bounds node with
    | none => exact hq
    | some bbox =>
      simp only
      by_cases hc : acc.any
          (fun e => decide (dist2 (bboxCenter bbox) (bboxCenter e.bbox) ≤ 25)) = true
      · simp only [hc, if_true]; exact hq
      · simp only [hc, if_false, Bool.false_eq_true]
        refine List.pairwise_append.mpr ⟨hq, List.pairwise_singleton _ _, ?_⟩
        intro e1 h1 e2 h2
        rcases List.mem_singleton.mp h2 with rfl
        have := List.any_eq_false.mp (Bool.not_eq_true _ ▸ hc) e1 h1
        simp only [mkIOSElement, decide_eq_true_eq] at this ⊢
        rw [dist2_comm] at this
        omega
  · simp only [hi, if_false, Bool.false_eq_true]; exact hq

/-- The clickable pass satisfies both invariants. -/
theorem click_pass_inv (src : Option XNode) :
    PassInv "clickable" (traverse_ios_tree src [] "clickable" true) ∧
      SepInv (traverse_ios_tree src [] "clickable" true) := by
  constructor
  · exact traverse_preserves _ _ _ (visitStep_passinv "clickable" true) src []
      (by intro e he; simp at he)
  · exact traverse_preserves _ _ _ (visitStep_sepinv "clickable" true) src []
      List.Pairwise.nil

/-- Claim C1 (counterexample): the discovery order of the qualifying
candidates of a pass over `cexTree` is `(1,1), (5,1), (9,1)`; the pair
`(5,1), (9,1)` lies within the in-pass suppression radius
(`dist2 = 16 ≤ 25`, i.e. distance 4 ≤ 5), yet the merged element list
retains the later-discovered `(9,1)` and not the earlier-discovered
`(5,1)` — refuting the claim that for every pair of candidates within the
suppression radius the retained one is the earlier-discovered
candidate. -/
theorem claim_C1_cex :
    candCentersNode cexTree = [(1, 1), (5, 1), (9, 1)] ∧
    dist2 (5, 1) (9, 1) ≤ 25 ∧
    (get_ios_elements (some cexTree)).map (fun e => bboxCenter e.bbox) = [(1, 1), (9, 1)] ∧
    ¬ ((5, 1) ∈ (get_ios_elements (some cexTree)).map (fun e => bboxCenter e.bbox)) := by
  decide

/-- Claim C1 (amended): in the merged list, every clickable element is kept
unconditionally and placed first in its own internal order, and a
focusable element is appended iff its center is farther than 10
(`dist2 > 100`) from every clickable center; within a single pass a newly
qualifying node is discarded exactly when its center lies within distance
5 (`dist2 ≤ 25`) of an already-accepted center; and for any pair of
candidates within the applicable suppression radius the merged list
retains at most one of them (two retained elements of the same pass are
farther than 5 apart and two retained elements of different passes are
farther than 10 apart) — but the retained one need not be the
earlier-discovered candidate (see the counterexample). -/
theorem claim_C1_merge (src : Option XNode) :
    (get_ios_elements src =
      traverse_ios_tree src [] "clickable" true ++
        (traverse_ios_tree src [] "focusable" true).filter
          (fun elem => !(traverse_ios_tree src [] "clickable" true).any
            (fun e => dist2 (bboxCenter elem.bbox) (bboxCenter e.bbox) ≤ 100))) ∧
    (∀ (attrib : String) (add_index : Bool) (parent : Option XNode)
        (node : XNode) (acc : List IOSElement) (bbox : BBox),
      is_interactive_element node = true →
      get_element_bounds node = some bbox →
      visitStep attrib add_index parent node acc =
        if acc.any (fun e => dist2 (bboxCenter bbox) (bboxCenter e.bbox) ≤ 25) then acc
        else acc ++ [mkIOSElement attrib add_index parent node bbox]) ∧
    ((get_ios_elements src).Pairwise (fun e1 e2 =>
      (e1.attrib = e2.attrib → 25 < dist2 (bboxCenter e1.bbox) (bboxCenter e2.bbox)) ∧
      (e1.attrib ≠ e2.attrib → 100 < dist2 (bboxCenter e1.bbox) (bboxCenter e2.bbox)))) := by
  refine ⟨get_ios_elements_eq src, ?_, ?_⟩
  · intro attrib add_index parent node acc bbox hi hb
    simp only [visitStep, hi, if_true, hb]
  · rw [merged_eq_click]
    obtain ⟨hp, hs⟩ := click_pass_inv src
    refine List.Pairwise.imp_of_mem ?_ hs
    intro e1 e2 h1 h2 hr
    refine ⟨fun _ => hr, fun hne => absurd ?_ hne⟩
    rw [(hp e1 h1).1, (hp e2 h2).1]

/-- Claim C1 (witness): the amended statement instantiated on `cexTree`
and on a concrete qualifying node with an empty accumulator. -/
theorem claim_C1_merge_witness :
    is_interactive_element (btnAt 0) = true ∧
    get_element_bounds (btnAt 0) = some ((0, 0), (2, 2)) ∧
    visitStep "clickable" true none (btnAt 0) [] =
      (if ([] : List IOSElement).any
          (fun e => dist2 (bboxCenter ((0, 0), (2, 2))) (bboxCenter e.bbox) ≤ 25) then []
       else [] ++ [mkIOSElement "clickable" true none (btnAt 0) ((0, 0), (2, 2))]) :=
  ⟨by decide, by decide,
    (claim_C1_merge (some cexTree)).2.1 "clickable" true none (btnAt 0) []
      ((0, 0), (2, 2)) (by decide) (by decide)⟩

/-- Claim C2: every element of the merged list carries attrib
`"clickable"`; indeed the merged list is exactly the clickable pass, the
focusable pass being an attribute-renamed copy each of whose elements is
suppressed at distance 0 by its clickable twin. -/
theorem claim_C2 (src : Option XNode) :
    (∀ e ∈ get_ios_elements src, e.attrib = "clickable") ∧
    get_ios_elements src = traverse_ios_tree src [] "clickable" true := by
  refine ⟨?_, merged_eq_click src⟩
  intro e he
  rw [merged_eq_click src] at he
  exact ((click_pass_inv src).1 e he).1

/-- Claim C2 (witness): instantiated on `cexTree` and its first merged
element. -/
theorem claim_C2_witness :
    wClick ∈ get_ios_elements (some cexTree) ∧ wClick.attrib = "clickable" :=
  ⟨by decide, (claim_C2 (some cexTree)).1 wClick (by decide)⟩

/-- Claim C6: every element of the merged output has a strictly positive
box (`bottom_right` strictly beyond `top_left` in both coordinates); in
particular the all-zero box never appears. -/
theorem claim_C6 (src : Option XNode) :
    ∀ e ∈ get_ios_elements src,
      e.bbox.1.1 < e.bbox.2.1 ∧ e.bbox.1.2 < e.bbox.2.2 ∧
        e.bbox ≠ ((0, 0), (0, 0)) := by
  intro e he
  rw [merged_eq_click src] at he
  obtain ⟨-, h1, h2⟩ := (click_pass_inv src).1 e he
  refine ⟨h1, h2, fun hz => ?_⟩
  rw [hz] at h1
  exact absurd h1 (by decide)

/-- Claim C6 (witness): instantiated on `cexTree` and its second merged
element. -/
theorem claim_C6_witness :
    wClick2 ∈ get_ios_elements (some cexTree) ∧
      wClick2.bbox.1.1 < wClick2.bbox.2.1 ∧ wClick2.bbox.1.2 < wClick2.bbox.2.2 ∧
        wClick2.bbox ≠ ((0, 0), (0, 0)) :=
  ⟨by decide, claim_C6 (some cexTree) wClick2 (by decide)⟩

/-- Claim C3: on a nonempty element list of length `n`, requesting index 0
or index `n+1` — indeed any index outside `1..n` — yields the explicit
addressing error (no clamping), while requesting index `n` succeeds and
taps the physical conversion of the `n`-th element's logical bounding-box
center. -/
theorem claim_C3 (l : List IOSElement) (h : 1 ≤ l.length) :
    tap_by_index l 0 = .error .indexOutOfRange ∧
    tap_by_index l ((l.length : Int) + 1) = .error .indexOutOfRange ∧
    (∀ i : Int, ¬ (1 ≤ i ∧ i ≤ (l.length : Int)) →
      tap_by_index l i = .error .indexOutOfRange) ∧
    (∀ e, l.get? (l.length - 1) = some e →
      tap_by_index l (l.length : Int) =
        .ok (_logical_to_physical (Int.fdiv (e.bbox.1.1 + e.bbox.2.1) 2)
          (Int.fdiv (e.bbox.1.2 + e.bbox.2.2) 2))) := by
  have hne : l.isEmpty = false := by
    cases l with
    | nil => simp at h
    | cons a t => rfl
  refine ⟨?_, ?_, ?_, ?_⟩
  · simp [tap_by_index, hne]
  · have : ¬ (0 < (l.length : Int) + 1 ∧ (l.length : Int) + 1 ≤ (l.length : Int)) := by omega
    simp [tap_by_index, hne, this]
  · intro i hi
    have : ¬ (0 < i ∧ i ≤ (l.length : Int)) := by omega
    simp [tap_by_index, hne, this]
  · intro e he
    rw [List.get?_eq_getElem?] at he
    have hcond : 0 < (l.length : Int) ∧ (l.length : Int) ≤ (l.length : Int) := by omega
    have hidx : (((l.length : Int) - 1).toNat) = l.length - 1 := by omega
    simp [tap_by_index, hne, hcond, hidx, he]

/-- Claim C3 (witness): a singleton list; index 0 and 2 error, index 1 taps
`(3, 6)` (logical center `(1, 2)` scaled by 3). -/
theorem claim_C3_witness :
    1 ≤ [wElem].length ∧
    tap_by_index [wElem] 0 = .error .indexOutOfRange ∧
    tap_by_index [wElem] 2 = .error .indexOutOfRange ∧
    tap_by_index [wElem] 1 = .ok (3, 6) :=
  ⟨by decide, (claim_C3 [wElem] (by decide)).1,
    by
      have := (claim_C3 [wElem] (by decide)).2.1
      simpa using this,
    by
      have := (claim_C3 [wElem] (by decide)).2.2.2 wElem (by decide)
      simpa using this⟩

/-- Claim C4: the scale factor is 3; converting physical to logical
truncates the quotient and converting back multiplies, so the round trip
shrinks each nonnegative coordinate by at most `S - 1 = 2`. -/
theorem claim_C4 (x y : Int) (hx : 0 ≤ x) (hy : 0 ≤ y) :
    SCALE_FACTOR = 3 ∧
    _logical_to_physical x y = (x * SCALE_FACTOR, y * SCALE_FACTOR) ∧
    _physical_to_logical x y = (Int.tdiv x SCALE_FACTOR, Int.tdiv y SCALE_FACTOR) ∧
    (0 ≤ x - (_logical_to_physical (_physical_to_logical x y).1
        (_physical_to_logical x y).2).1 ∧
      x - (_logical_to_physical (_physical_to_logical x y).1
        (_physical_to_logical x y).2).1 ≤ SCALE_FACTOR - 1) ∧
    (0 ≤ y - (_logical_to_physical (_physical_to_logical x y).1
        (_physical_to_logical x y).2).2 ∧
      y - (_logical_to_physical (_physical_to_logical x y).1
        (_physical_to_logical x y).2).2 ≤ SCALE_FACTOR - 1) := by
  refine ⟨rfl, rfl, rfl, ?_, ?_⟩ <;>
    simp only [_physical_to_logical, _logical_to_physical, SCALE_FACTOR] <;>
    rw [Int.tdiv_eq_ediv (by omega) (by omega)] <;>
    omega

/-- Claim C4 (witness): instantiated at `(x, y) = (7, 5)`: the round trip
gives `(6, 3)`, within `(2, 2)` of the input. -/
theorem claim_C4_witness :
    0 ≤ (7 : Int) ∧ 0 ≤ (5 : Int) ∧
    (SCALE_FACTOR = 3 ∧
      _logical_to_physical 7 5 = (7 * SCALE_FACTOR, 5 * SCALE_FACTOR) ∧
      _physical_to_logical 7 5 = (Int.tdiv 7 SCALE_FACTOR, Int.tdiv 5 SCALE_FACTOR) ∧
      (0 ≤ 7 - (_logical_to_physical (_physical_to_logical 7 5).1
          (_physical_to_logical 7 5).2).1 ∧
        7 - (_logical_to_physical (_physical_to_logical 7 5).1
          (_physical_to_logical 7 5).2).1 ≤ SCALE_FACTOR - 1) ∧
      (0 ≤ 5 - (_logical_to_physical (_physical_to_logical 7 5).1
          (_physical_to_logical 7 5).2).2 ∧
        5 - (_logical_to_physical (_physical_to_logical 7 5).1
          (_physical_to_logical 7 5).2).2 ≤ SCALE_FACTOR - 1)) :=
  ⟨by decide, by decide, claim_C4 7 5 (by decide) (by decide)⟩

/-- Claim C10: on a 1179-pixel-wide screenshot the auto-detection returns
exactly 3 (the 393-logical-width profile matches, `|1179/3 - 393| = 0`),
not the generic estimate `1179/375`. -/
theorem claim_C10 :
    _get_scale_factor (some (2556, 1179)) = 3 ∧ (1179 : ℚ) / 375 ≠ 3 := by
  constructor
  · show scale_from_width 1179 = 3
    unfold scale_from_width
    norm_num
  · norm_num

/-- Claim C7: the per-node identifier is `type_identifierOrName` (spaces
and colons replaced) when the node carries a (nonempty) name, identifier
or label attribute, else `type_width_height`; a non-root node's identifier
is prefixed with its parent's identifier; and with `add_index` (as both
passes use) the node's reported `index` attribute is appended when
present (with default `"0"` when absent). -/
theorem claim_C7 (node p : XNode) (attrib : String) (bb : BBox) :
    (idSource node ≠ "" →
      get_element_id node = node.tag ++ "_" ++ sanitizeId (idSource node)) ∧
    (idSource node = "" →
      get_element_id node =
        node.tag ++ "_" ++ toString (elemWH node).1 ++ "_" ++ toString (elemWH node).2) ∧
    ((mkIOSElement attrib true (some p) node bb).uid =
      get_element_id p ++ "_" ++ get_element_id node ++ "_" ++ node.getD "index" "0") ∧
    (∀ v, node.get "index" = some v →
      (mkIOSElement attrib true (some p) node bb).uid =
        get_element_id p ++ "_" ++ get_element_id node ++ "_" ++ v) := by
  refine ⟨?_, ?_, ?_, ?_⟩
  · intro h
    simp [get_element_id, h]
  · intro h
    simp [get_element_id, h]
  · simp [mkIOSElement, String.append_assoc]
  · intro v hv
    simp [mkIOSElement, XNode.getD, hv, String.append_assoc]

/-- Claim C7 (witness): the named node gets `type_name` with the space
replaced; the anonymous parent gets `type_0_0`; the built uid is
parent-prefixed and index-suffixed. -/
theorem claim_C7_witness :
    idSource wNode ≠ "" ∧
    get_element_id wNode = wNode.tag ++ "_" ++ sanitizeId (idSource wNode) ∧
    wNode.get "index" = some "3" ∧
    (mkIOSElement "clickable" true (some wPar) wNode ((0, 0), (10, 10))).uid =
      get_element_id wPar ++ "_" ++ get_element_id wNode ++ "_" ++ "3" ∧
    (mkIOSElement "clickable" true (some wPar) wNode ((0, 0), (10, 10))).uid =
      "Root_0_0_XCUIElementTypeButton_OK_Go_3" :=
  ⟨by decide,
    (claim_C7 wNode wPar "clickable" ((0, 0), (10, 10))).1 (by decide),
    by decide,
    (claim_C7 wNode wPar "clickable" ((0, 0), (10, 10))).2.2.2 "3" (by decide),
    by decide⟩

/-- Claim C8 (counterexample): a successful non-JSON response whose
nonempty raw body `"hello"` fails the plausibility check is NOT returned —
the raw-body arm yields no result (the candidate is abandoned), contrary
to the claim that the extracted string is returned even when it fails the
check. -/
theorem claim_C8_cex :
    (pyStrip "hello".toList).length ≠ 0 ∧ processRawText "hello" = none := by
  decide

/-- Claim C8 (amended): a nonempty payload extracted from the JSON-like
wrapper is always returned, even when it fails the markup plausibility
check; but in the raw-body fallback (when JSON decoding fails) the trimmed
body is returned only when it passes the plausibility check, and content
failing the check is logged and dropped (the candidate URL is
abandoned). -/
theorem claim_C8 :
    (∀ source : String, (pyStrip source.toList).length ≠ 0 →
      (processSource source).isSome = true) ∧
    (∀ text : String, (pyStrip text.toList).length ≠ 0 →
      processRawText text =
        (if looksLikeXmlL (pyStrip text.toList) then some (String.mk (pyStrip text.toList))
         else none)) := by
  constructor
  · intro source h
    unfold processSource
    simp only [h, if_false]
    split_ifs <;> rfl
  · intro text h
    unfold processRawText
    simp only [h, if_false]

/-- Claim C8 (witness): the JSON-wrapper arm returns the implausible
payload `"hello"`; the raw-body arm returns `"<a/>"` (plausible) as is. -/
theorem claim_C8_witness :
    (pyStrip "hello".toList).length ≠ 0 ∧
    (processSource "hello").isSome = true ∧
    processRawText "<a/>" =
      (if looksLikeXmlL (pyStrip "<a/>".toList) then some (String.mk (pyStrip "<a/>".toList))
       else none) :=
  ⟨by decide, (claim_C8).1 "hello" (by decide), (claim_C8).2 "<a/>" (by decide)⟩

/-- A list of length at least four starts with four explicit elements. -/
theorem exists_four_parts {α : Type} (l : List α) (h : 4 ≤ l.length) :
    ∃ a b c d r, l = a :: b :: c :: d :: r := by
  rcases l with _ | ⟨a, _ | ⟨b, _ | ⟨c, _ | ⟨d, r⟩⟩⟩⟩ <;>
    simp only [List.length] at h <;> first
      | omega
      | exact ⟨a, b, c, d, r, rfl⟩

/-- If any of the first four comma-separated parts fails `int(float(_))`,
the four-field decode yields `none` (the `except` arm of
`parse_bounds`). -/
theorem parseFourParts_fail (p0 p1 p2 p3 : List Char) (rest : List (List Char))
    (h : pyIntFloat (pyStrip p0) = none ∨ pyIntFloat (pyStrip p1) = none ∨
         pyIntFloat (pyStrip p2) = none ∨ pyIntFloat (pyStrip p3) = none) :
    parseFourParts (p0 :: p1 :: p2 :: p3 :: rest) = none := by
  rcases h with h | h | h | h
  · simp [parseFourParts, h]
  · cases h0 : pyIntFloat (pyStrip p0) <;> simp [parseFourParts, h0, h]
  · cases h0 : pyIntFloat (pyStrip p0) <;> cases h1 : pyIntFloat (pyStrip p1) <;>
      simp [parseFourParts, h0, h1, h]
  · cases h0 : pyIntFloat (pyStrip p0) <;> cases h1 : pyIntFloat (pyStrip p1) <;>
      cases h2 : pyIntFloat (pyStrip p2) <;> simp [parseFourParts, h0, h1, h2, h]

/-- Claim C9: a bounds decode failure yields `none` rather than an
exception — fewer than four comma-separated parts (after brace stripping
when the nested form is detected) gives `none`, as does a non-numeric
token among the first four parts — and a node whose bounding box cannot be
resolved contributes nothing to the candidate list while its subtree is
still traversed. -/
theorem claim_C9 :
    (∀ s : List Char,
      (pySplit (if containsSub ['\x7b', '\x7b'] s then removeBraces s else s)).length < 4 →
      parseBoundsL s = none) ∧
    (∀ s : List Char,
      4 ≤ (pySplit (if containsSub ['\x7b', '\x7b'] s then removeBraces s else s)).length →
      (∃ i < 4, pyIntFloat (pyStrip
        ((pySplit (if containsSub ['\x7b', '\x7b'] s then removeBraces s else s)).getD i [])) = none) →
      parseBoundsL s = none) ∧
    (∀ (attrib : String) (add_index : Bool) (parent : Option XNode)
        (tag : String) (attrs : List (String × String)) (cs : XForest)
        (elem_list : List IOSElement),
      get_element_bounds (.mk tag attrs cs) = none →
      visitNode attrib add_index parent (.mk tag attrs cs) elem_list =
        visitForest attrib add_index (.mk tag attrs cs) cs elem_list) := by
  refine ⟨?_, ?_, ?_⟩
  · intro s h
    unfold parseBoundsL
    by_cases hempty : s = []
    · simp [hempty]
    · simp only [hempty, if_false]
      by_cases hc : containsSub ['\x7b', '\x7b'] s = true
      · rw [if_pos hc] at h
        have hlt : ¬ (4 ≤ (pySplit (removeBraces s)).length) := by omega
        simp [hc, hlt, parseFlat]
      · simp only [Bool.not_eq_true] at hc
        rw [hc] at h
        simp only [Bool.false_eq_true, if_false] at h
        have hlt : ¬ (4 ≤ (pySplit s).length) := by omega
        simp [hc, parseFlat, hlt]
  · intro s h4 hex
    have hsne : s ≠ [] := by
      intro he
      subst he
      revert h4
      by_cases hc : containsSub ['\x7b', '\x7b'] ([] : List Char) = true <;>
        simp [hc, pySplit, removeBraces, removeSub1, removeSub2]
    unfold parseBoundsL
    simp only [hsne, if_false]
    by_cases hc : containsSub ['\x7b', '\x7b'] s = true
    · rw [if_pos hc] at h4 hex
      obtain ⟨p0, p1, p2, p3, r, hps⟩ := exists_four_parts _ h4
      obtain ⟨i, hi, hnone⟩ := hex
      rw [hps] at hnone
      have hfail : parseFourParts (pySplit (removeBraces s)) = none := by
        rw [hps]
        refine parseFourParts_fail p0 p1 p2 p3 r ?_
        rcases i with _ | _ | _ | _ | i
        · exact Or.inl (by simpa using hnone)
        · exact Or.inr (Or.inl (by simpa using hnone))
        · exact Or.inr (Or.inr (Or.inl (by simpa using hnone)))
        · exact Or.inr (Or.inr (Or.inr (by simpa using hnone)))
        · omega
      simp [hc, h4, hfail]
    · simp only [Bool.not_eq_true] at hc
      rw [hc] at h4 hex
      simp only [Bool.false_eq_true, if_false] at h4 hex
      obtain ⟨p0, p1, p2, p3, r, hps⟩ := exists_four_parts _ h4
      obtain ⟨i, hi, hnone⟩ := hex
      rw [hps] at hnone
      have hfail : parseFourParts (pySplit s) = none := by
        rw [hps]
        refine parseFourParts_fail p0 p1 p2 p3 r ?_
        rcases i with _ | _ | _ | _ | i
        · exact Or.inl (by simpa using hnone)
        · exact Or.inr (Or.inl (by simpa using hnone))
        · exact Or.inr (Or.inr (Or.inl (by simpa using hnone)))
        · exact Or.inr (Or.inr (Or.inr (by simpa using hnone)))
        · omega
      simp [hc, parseFlat, h4, hfail]
  · intro attrib add_index parent tag attrs cs elem_list hb
    rw [visitNode]
    have hstep : visitStep attrib add_index parent (.mk tag attrs cs) elem_list = elem_list := by
      unfold visitStep
      simp [interactive_needs_bounds _ hb]
    rw [hstep]

/-- Claim C9 (witness): `"abc"` has one part; `"a,b,c,d"` has a
non-numeric first token; a node with unparseable bounds is skipped while
its button child is still collected. -/
theorem claim_C9_witness :
    ((pySplit (if containsSub ['\x7b', '\x7b'] "abc".toList
        then removeBraces "abc".toList else "abc".toList)).length < 4 ∧
      parseBoundsL "abc".toList = none) ∧
    (4 ≤ (pySplit (if containsSub ['\x7b', '\x7b'] "a,b,c,d".toList
        then removeBraces "a,b,c,d".toList else "a,b,c,d".toList)).length ∧
      parseBoundsL "a,b,c,d".toList = none) ∧
    visitNode "clickable" true none
        (.mk "Bad" [("bounds", "xyz")] (.cons (btnAt 0) .nil)) [] =
      visitForest "clickable" true (.mk "Bad" [("bounds", "xyz")] (.cons (btnAt 0) .nil))
        (.cons (btnAt 0) .nil) [] :=
  ⟨⟨by decide, (claim_C9).1 "abc".toList (by decide)⟩,
   ⟨by decide, (claim_C9).2.1 "a,b,c,d".toList (by decide)
      ⟨0, by omega, by decide⟩⟩,
   (claim_C9).2.2 "clickable" true none "Bad" [("bounds", "xyz")]
      (.cons (btnAt 0) .nil) [] (by decide)⟩

theorem digit_ne_of {c : Char} (h : c.isDigit = true) {d : Char}
    (hd : d.isDigit = false) : c ≠ d := by
  intro he
  rw [he, hd] at h
  exact absurd h (by decide)

theorem digit_not_ws {c : Char} (h : c.isDigit = true) : c.isWhitespace = false := by
  cases hw : c.isWhitespace
  · rfl
  · exfalso
    simp only [Char.isWhitespace, Bool.or_eq_true, decide_eq_true_eq] at hw
    rcases hw with ((h1 | h1) | h1) | h1 <;> subst h1 <;> exact absurd h (by decide)

theorem dropWhile_eq_self_of {p : Char → Bool} {l : List Char}
    (h : ∀ c ∈ l, p c = false) : l.dropWhile p = l := by
  cases l with
  | nil => rfl
  | cons c rest =>
    rw [List.dropWhile_cons_of_neg]
    simp [h c (List.mem_cons_self c rest)]

theorem pyStrip_all_nonws {l : List Char} (h : ∀ c ∈ l, c.isWhitespace = false) :
    pyStrip l = l := by
  unfold pyStrip
  rw [dropWhile_eq_self_of h, dropWhile_eq_self_of, List.reverse_reverse]
  intro c hc
  exact h c (List.mem_reverse.mp hc)

theorem pyStrip_digits {l : List Char} (h : ∀ c ∈ l, c.isDigit = true) :
    pyStrip l = l :=
  pyStrip_all_nonws (fun c hc => digit_not_ws (h c hc))

theorem pyStrip_cons_space (t : List Char) : pyStrip (' ' :: t) = pyStrip t := by
  unfold pyStrip
  rw [List.dropWhile_cons_of_pos (by decide)]

/-- `int(float(t))` of a nonempty all-digit token is its decimal value. -/
theorem pyIntFloat_digits {t : List Char} (hne : t ≠ [])
    (hd : ∀ c ∈ t, c.isDigit = true) :
    pyIntFloat t = some ((digitsVal t : Int)) := by
  unfold pyIntFloat pyFloatParse
  rw [pyStrip_digits hd]
  obtain ⟨c, r, rfl⟩ : ∃ c r, t = c :: r := by
    cases t with
    | nil => exact absurd rfl hne
    | cons c r => exact ⟨c, r, rfl⟩
  have hc : c.isDigit = true := hd c (List.mem_cons_self c r)
  have hplus : ((c :: r).headI = '+') = False := by
    simp only [List.headI]
    exact eq_false (digit_ne_of hc (by decide))
  have hminus : ((c :: r).headI = '-') = False := by
    simp only [List.headI]
    exact eq_false (digit_ne_of hc (by decide))
  simp only [hplus, hminus, if_false]
  rw [List.takeWhile_eq_self_iff.mpr hd]
  simp only [List.drop_length]
  simp +decide [parseExpPart, pyTruncLit, hne]

theorem pySplit_no_comma {l : List Char} (h : ∀ c ∈ l, c ≠ ',') :
    pySplit l = [l] := by
  induction l with
  | nil => rfl
  | cons c r ih =>
    rw [pySplit]
    rw [if_neg (h c (List.mem_cons_self c r))]
    rw [ih (fun d hd => h d (List.mem_cons_of_mem c hd))]

theorem pySplit_append {xs : List Char} (ys : List Char)
    (h : ∀ c ∈ xs, c ≠ ',') :
    pySplit (xs ++ ',' :: ys) = xs :: pySplit ys := by
  induction xs with
  | nil => simp [pySplit]
  | cons x xs ih =>
    rw [List.cons_append, pySplit]
    rw [if_neg (h x (List.mem_cons_self x xs))]
    rw [ih (fun d hd => h d (List.mem_cons_of_mem x hd))]

theorem containsSub_head_false {c : Char} {p l : List Char}
    (h : ∀ d ∈ l, d ≠ c) : containsSub (c :: p) l = false := by
  induction l with
  | nil => rfl
  | cons x xs ih =>
    rw [containsSub]
    have hx : (List.isPrefixOf (c :: p) (x :: xs)) = false := by
      simp only [List.isPrefixOf]
      have : (c == x) = false := by
        simp only [beq_eq_false_iff_ne]
        exact fun he => (h x (List.mem_cons_self x xs)) he.symm
      simp [this]
    rw [hx]
    simp only [Bool.false_or]
    exact ih (fun d hd => h d (List.mem_cons_of_mem x hd))

theorem removeSub2_filter {a b : Char} {P : Char → Bool}
    (ha : P a = false) (hb : P b = false) :
    ∀ l : List Char, (removeSub2 a b l).filter P = l.filter P := by
  intro l
  induction l using removeSub2.induct a b with
  | case1 => rfl
  | case2 c => rfl
  | case3 c d rest hcd ih =>
    rw [removeSub2]
    simp only [if_pos hcd]
    obtain ⟨hc1, hc2⟩ := hcd
    subst hc1; subst hc2
    simp [List.filter_cons, ha, hb, ih]
  | case4 c d rest hcd ih =>
    rw [removeSub2]
    simp only [if_neg hcd]
    simp [List.filter_cons, ih]

theorem removeSub1_eq_filter (a : Char) :
    ∀ l : List Char, removeSub1 a l = l.filter (fun c => !(c = a)) := by
  intro l
  induction l with
  | nil => rfl
  | cons c r ih =>
    rw [removeSub1, List.filter_cons]
    by_cases h : c = a
    · simp [h, ih]
    · simp [h, ih]

/-- The four chained `replace` calls of `parse_bounds` remove exactly the
brace characters, in order. -/
theorem removeBraces_eq_filter (l : List Char) :
    removeBraces l = l.filter (fun c => !(c = '\x7b' || c = '\x7d')) := by
  unfold removeBraces
  rw [removeSub1_eq_filter, removeSub1_eq_filter, List.filter_filter]
  have hpt : (fun a => ((!decide (a = '\x7d')) && (!decide (a = '\x7b')) : Bool)) =
      (fun c => ((!(decide (c = '\x7b') || decide (c = '\x7d'))) : Bool)) := by
    funext c
    by_cases h1 : c = '\x7b' <;> by_cases h2 : c = '\x7d' <;> simp [h1, h2]
  rw [hpt]
  rw [removeSub2_filter (by decide) (by decide), removeSub2_filter (by decide) (by decide)]

theorem filter_keep_digits {t : List Char} (hd : ∀ c ∈ t, c.isDigit = true) :
    t.filter (fun c => !(c = '\x7b' || c = '\x7d')) = t := by
  induction t with
  | nil => rfl
  | cons c r ih =>
    have hc := hd c (List.mem_cons_self c r)
    rw [List.filter_cons]
    have h1 : (decide (c = '\x7b') : Bool) = false := by
      simp [digit_ne_of hc (d := '\x7b') (by decide)]
    have h2 : (decide (c = '\x7d') : Bool) = false := by
      simp [digit_ne_of hc (d := '\x7d') (by decide)]
    simp only [h1, h2, Bool.or_false, Bool.not_false, if_true]
    rw [ih (fun d hdm => hd d (List.mem_cons_of_mem c hdm))]

theorem parseFourParts_vals (q1 q2 q3 q4 : List Char) (r : List (List Char))
    (v1 v2 v3 v4 : Int)
    (h1 : pyIntFloat (pyStrip q1) = some v1)
    (h2 : pyIntFloat (pyStrip q2) = some v2)
    (h3 : pyIntFloat (pyStrip q3) = some v3)
    (h4 : pyIntFloat (pyStrip q4) = some v4) :
    parseFourParts (q1 :: q2 :: q3 :: q4 :: r) = some ((v1, v2), (v1 + v3, v2 + v4)) := by
  simp [parseFourParts, h1, h2, h3, h4]

section C5Assembly

variable {t1 t2 t3 t4 : List Char}

theorem digit_tok_no_comma (hd : ∀ c ∈ t1, c.isDigit = true) :
    ∀ c ∈ t1, c ≠ ',' :=
  fun c hc => digit_ne_of (hd c hc) (by decide)

theorem pyIntFloat_strip_tok (hne : t1 ≠ []) (hd : ∀ c ∈ t1, c.isDigit = true) :
    pyIntFloat (pyStrip t1) = some ((digitsVal t1 : Int)) := by
  rw [pyStrip_digits hd]
  exact pyIntFloat_digits hne hd

theorem pyIntFloat_strip_space_tok (hne : t1 ≠ []) (hd : ∀ c ∈ t1, c.isDigit = true) :
    pyIntFloat (pyStrip (' ' :: t1)) = some ((digitsVal t1 : Int)) := by
  rw [pyStrip_cons_space, pyStrip_digits hd]
  exact pyIntFloat_digits hne hd

end C5Assembly

theorem nested_removeBraces (t1 t2 t3 t4 : List Char)
    (hd : ∀ c ∈ t1 ++ t2 ++ t3 ++ t4, c.isDigit = true) :
    removeBraces (nestedBoundsStr t1 t2 t3 t4) =
      t1 ++ ',' :: ' ' :: (t2 ++ ',' :: ' ' :: (t3 ++ ',' :: ' ' :: t4)) := by
  have hd1 : ∀ c ∈ t1, c.isDigit = true := fun c hc => hd c (by simp [hc])
  have hd2 : ∀ c ∈ t2, c.isDigit = true := fun c hc => hd c (by simp [hc])
  have hd3 : ∀ c ∈ t3, c.isDigit = true := fun c hc => hd c (by simp [hc])
  have hd4 : ∀ c ∈ t4, c.isDigit = true := fun c hc => hd c (by simp [hc])
  rw [removeBraces_eq_filter]
  unfold nestedBoundsStr
  simp only [List.filter_cons, List.filter_append]
  rw [filter_keep_digits hd1, filter_keep_digits hd2, filter_keep_digits hd3,
    filter_keep_digits hd4]
  simp

theorem nested_split (t1 t2 t3 t4 : List Char)
    (hd : ∀ c ∈ t1 ++ t2 ++ t3 ++ t4, c.isDigit = true) :
    pySplit (t1 ++ ',' :: ' ' :: (t2 ++ ',' :: ' ' :: (t3 ++ ',' :: ' ' :: t4))) =
      [t1, ' ' :: t2, ' ' :: t3, ' ' :: t4] := by
  have hd1 : ∀ c ∈ t1, c.isDigit = true := fun c hc => hd c (by simp [hc])
  have hd2 : ∀ c ∈ t2, c.isDigit = true := fun c hc => hd c (by simp [hc])
  have hd3 : ∀ c ∈ t3, c.isDigit = true := fun c hc => hd c (by simp [hc])
  have hd4 : ∀ c ∈ t4, c.isDigit = true := fun c hc => hd c (by simp [hc])
  have hsp : ∀ {t : List Char}, (∀ c ∈ t, c.isDigit = true) → ∀ c ∈ ' ' :: t, c ≠ ',' := by
    intro t ht c hc
    rcases List.mem_cons.mp hc with rfl | hc
    · decide
    · exact digit_ne_of (ht c hc) (by decide)
  rw [pySplit_append _ (digit_tok_no_comma hd1)]
  rw [show (' ' :: (t2 ++ ',' :: ' ' :: (t3 ++ ',' :: ' ' :: t4))) =
    ((' ' :: t2) ++ ',' :: (' ' :: (t3 ++ ',' :: ' ' :: t4))) from by simp]
  rw [pySplit_append _ (hsp hd2)]
  rw [show (' ' :: (t3 ++ ',' :: ' ' :: t4)) =
    ((' ' :: t3) ++ ',' :: (' ' :: t4)) from by simp]
  rw [pySplit_append _ (hsp hd3)]
  rw [pySplit_no_comma (hsp hd4)]

theorem parseFlat_eq (l : List Char) :
    parseFlat l =
      if 4 ≤ (pySplit l).length then parseFourParts (pySplit l) else none := rfl

theorem parseBoundsL_nested_eq (l : List Char) (hne : l ≠ [])
    (hc : containsSub ['\x7b', '\x7b'] l = true) :
    parseBoundsL l =
      if 4 ≤ (pySplit (removeBraces l)).length then parseFourParts (pySplit (removeBraces l))
      else parseFlat (removeBraces l) := by
  unfold parseBoundsL
  rw [if_neg hne, if_pos hc]

theorem parseBoundsL_flat_eq (l : List Char) (hne : l ≠ [])
    (hc : containsSub ['\x7b', '\x7b'] l = false) :
    parseBoundsL l = parseFlat l := by
  unfold parseBoundsL
  rw [if_neg hne, hc]
  simp only [Bool.false_eq_true, if_false]

/-- Claim C5: the two supported encodings of the same four numbers decode
to the same rectangle `((x, y), (x+width, y+height))` — the nested brace
form through brace stripping and the flat comma form directly — and in
particular the two concrete encodings of `10, 20, 30, 40` both decode to
`((10, 20), (40, 60))`. -/
theorem claim_C5 (t1 t2 t3 t4 : List Char)
    (h1 : t1 ≠ []) (h2 : t2 ≠ []) (h3 : t3 ≠ []) (h4 : t4 ≠ [])
    (hd : ∀ c ∈ t1 ++ t2 ++ t3 ++ t4, c.isDigit = true) :
    (parseBoundsL (nestedBoundsStr t1 t2 t3 t4) =
      some (((digitsVal t1 : Int), (digitsVal t2 : Int)),
        ((digitsVal t1 : Int) + (digitsVal t3 : Int),
         (digitsVal t2 : Int) + (digitsVal t4 : Int))) ∧
    parseBoundsL (flatBoundsStr t1 t2 t3 t4) =
      some (((digitsVal t1 : Int), (digitsVal t2 : Int)),
        ((digitsVal t1 : Int) + (digitsVal t3 : Int),
         (digitsVal t2 : Int) + (digitsVal t4 : Int)))) ∧
    parse_bounds "\x7b\x7b10, 20\x7d, \x7b30, 40\x7d\x7d" = some ((10, 20), (40, 60)) ∧
    parse_bounds "10,20,30,40" = some ((10, 20), (40, 60)) := by
  refine ⟨?_, by decide, by decide⟩
  have hd1 : ∀ c ∈ t1, c.isDigit = true := fun c hc => hd c (by simp [hc])
  have hd2 : ∀ c ∈ t2, c.isDigit = true := fun c hc => hd c (by simp [hc])
  have hd3 : ∀ c ∈ t3, c.isDigit = true := fun c hc => hd c (by simp [hc])
  have hd4 : ∀ c ∈ t4, c.isDigit = true := fun c hc => hd c (by simp [hc])
  constructor
  · have hne : nestedBoundsStr t1 t2 t3 t4 ≠ [] := by
      unfold nestedBoundsStr
      exact List.cons_ne_nil _ _
    have hcontains : containsSub ['\x7b', '\x7b'] (nestedBoundsStr t1 t2 t3 t4) = true := by
      unfold nestedBoundsStr
      simp [containsSub, List.isPrefixOf]
    rw [parseBoundsL_nested_eq _ hne hcontains]
    rw [nested_removeBraces t1 t2 t3 t4 hd, nested_split t1 t2 t3 t4 hd]
    simp only [List.length_cons, List.length_nil]
    rw [if_pos (by omega)]
    exact parseFourParts_vals _ _ _ _ _ _ _ _ _
      (pyIntFloat_strip_tok h1 hd1) (pyIntFloat_strip_space_tok h2 hd2)
      (pyIntFloat_strip_space_tok h3 hd3) (pyIntFloat_strip_space_tok h4 hd4)
  · have hne : flatBoundsStr t1 t2 t3 t4 ≠ [] := by
      unfold flatBoundsStr
      cases t1 with
      | nil => exact absurd rfl h1
      | cons c r => exact List.cons_ne_nil _ _
    have hnobrace : ∀ d ∈ flatBoundsStr t1 t2 t3 t4, d ≠ '\x7b' := by
      intro d hdm
      unfold flatBoundsStr at hdm
      simp only [List.mem_append, List.mem_cons] at hdm
      rcases hdm with hm | hm | hm | hm | hm | hm | hm
      · exact digit_ne_of (hd1 d hm) (by decide)
      · subst hm; decide
      · exact digit_ne_of (hd2 d hm) (by decide)
      · subst hm; decide
      · exact digit_ne_of (hd3 d hm) (by decide)
      · subst hm; decide
      · exact digit_ne_of (hd4 d hm) (by decide)
    have hcontains : containsSub ['\x7b', '\x7b'] (flatBoundsStr t1 t2 t3 t4) = false :=
      containsSub_head_false hnobrace
    rw [parseBoundsL_flat_eq _ hne hcontains, parseFlat_eq]
    unfold flatBoundsStr
    rw [pySplit_append _ (digit_tok_no_comma hd1)]
    rw [pySplit_append _ (digit_tok_no_comma hd2)]
    rw [pySplit_append _ (digit_tok_no_comma hd3)]
    rw [pySplit_no_comma (digit_tok_no_comma hd4)]
    simp only [List.length_cons, List.length_nil]
    rw [if_pos (by omega)]
    exact parseFourParts_vals _ _ _ _ _ _ _ _ _
      (pyIntFloat_strip_tok h1 hd1) (pyIntFloat_strip_tok h2 hd2)
      (pyIntFloat_strip_tok h3 hd3) (pyIntFloat_strip_tok h4 hd4)

/-- Claim C5 (witness): the general equivalence instantiated on the tokens
`10, 20, 30, 40`. -/
theorem claim_C5_witness :
    (['1', '0'] : List Char) ≠ [] ∧
    parseBoundsL (nestedBoundsStr ['1', '0'] ['2', '0'] ['3', '0'] ['4', '0']) =
      some ((10, 20), (40, 60)) ∧
    parseBoundsL (flatBoundsStr ['1', '0'] ['2', '0'] ['3', '0'] ['4', '0']) =
      some ((10, 20), (40, 60)) :=
  ⟨by decide,
    (claim_C5 ['1', '0'] ['2', '0'] ['3', '0'] ['4', '0']
      (by decide) (by decide) (by decide) (by decide) (by decide)).1.1,
    (claim_C5 ['1', '0'] ['2', '0'] ['3', '0'] ['4', '0']
      (by decide) (by decide) (by decide) (by decide) (by decide)).1.2⟩
